import Mathlib

/-!
Shallow embedding of the Supabase astro-proxy gateway
(supabase/functions/astro-proxy, envelope-resolving revision): allowlist
enforcement, envelope unwrapping, query-parameter merging, and the payload
normalizers, together with theorems settling the specification claims.

Modelling conventions:
* JSON values are modelled by `Json`; numbers are modelled as integers
  (every numeric literal the gateway manipulates in the claims is an
  integer, and JS float formatting is out of scope).
* JS records (plain objects) are modelled as ordered association lists,
  mirroring JS insertion-order semantics; property assignment updates the
  first matching key in place or appends, `delete` removes the key.
* `URLSearchParams` is modelled as an ordered list of key/value pairs;
  percent-decoding of query strings is not modelled (no claim involves
  encoded characters).
* HTTP headers and the upstream response relay are not modelled; a request
  is resolved to either a rejection response or a single upstream request
  description (`ServeResult.forward`), so an upstream HTTP call happens
  exactly when the result is `forward`.
-/

namespace AstroProxy

/-- JSON values (numbers as integers). -/
inductive Json where
  | null : Json
  | bool (b : Bool) : Json
  | num (n : Int) : Json
  | str (s : String) : Json
  | arr (elems : List Json) : Json
  | obj (fields : List (String × Json)) : Json

/-- A JS record (`JsonRecord` in the source): ordered key/value entries. -/
abbrev JsonObj := List (String × Json)

/-- Property read `o[k]`: first entry with the key, `none` = JS `undefined`. -/
def objGet (l : JsonObj) (k : String) : Option Json :=
  match l with
  | [] => none
  | (k', v) :: rest => if k' = k then some v else objGet rest k

/-- Property assignment `o[k] = v`: update first match in place, else append. -/
def objSet (l : JsonObj) (k : String) (v : Json) : JsonObj :=
  match l with
  | [] => [(k, v)]
  | (k', v') :: rest => if k' = k then (k', v) :: rest else (k', v') :: objSet rest k v

/-- Property removal `delete o[k]`. -/
def objDelete (l : JsonObj) (k : String) : JsonObj :=
  match l with
  | [] => []
  | (k', v') :: rest => if k' = k then objDelete rest k else (k', v') :: objDelete rest k

/-- JS truthiness of a JSON value. -/
def jsTruthy : Json → Bool
  | Json.null => false
  | Json.bool b => b
  | Json.num n => n != 0
  | Json.str s => s ≠ ""
  | Json.arr _ => true
  | Json.obj _ => true

/-- JS truthiness of a possibly-undefined value (`undefined` is falsy). -/
def jsTruthyOpt : Option Json → Bool
  | none => false
  | some v => jsTruthy v

/-- JS `typeof v === "object"` (true for objects, arrays and null). -/
def isTypeofObject : Json → Bool
  | Json.null => true
  | Json.obj _ => true
  | Json.arr _ => true
  | _ => false

/-- JS nullish coalescing `a ?? b` on possibly-undefined values. -/
def jsCoalesce (a b : Option Json) : Option Json :=
  match a with
  | none => b
  | some Json.null => b
  | some v => some v

/-- Own enumerable entries as used by JS spread and `Object.entries`:
objects give their entries, arrays and strings give index-keyed entries,
primitives give nothing. -/
def jsSpread : Json → JsonObj
  | Json.obj l => l
  | Json.arr l => l.enum.map (fun p => (toString p.1, p.2))
  | Json.str s => s.toList.enum.map (fun p => (toString p.1, Json.str (String.singleton p.2)))
  | _ => []

mutual

/-- Array-to-string (JS `Array.prototype.join(",")` as invoked by
`String(...)`): elements joined with commas. -/
def jsStringList : List Json → String
  | [] => ""
  | [e] => jsStringElem e
  | e :: rest => jsStringElem e ++ "," ++ jsStringList rest

/-- An array element rendered inside a join: null renders empty, nested
arrays join recursively, other values render as `String(v)`. -/
def jsStringElem : Json → String
  | Json.null => ""
  | Json.bool b => if b then "true" else "false"
  | Json.num n => toString n
  | Json.str s => s
  | Json.obj _ => "[object Object]"
  | Json.arr l => jsStringList l

end

/-- JS `String(v)` conversion. -/
def jsString : Json → String
  | Json.null => "null"
  | Json.bool b => if b then "true" else "false"
  | Json.num n => toString n
  | Json.str s => s
  | Json.obj _ => "[object Object]"
  | Json.arr l => jsStringList l

/-- `RENDER_DATA_DATE_FIELDS` from the source. -/
def RENDER_DATA_DATE_FIELDS : List String :=
  ["year", "month", "day", "hour", "minute", "second"]

/-- Copy half of one `normalizeRenderDataPayload` loop iteration: when the
bare field is absent and the `natal_`-prefixed value is present in the
original `payload`, write it into the bare field. -/
def renderDataCopy (payload : JsonObj) (normalized : JsonObj) (field : String) : JsonObj :=
  match (objGet normalized field).isSome, objGet payload ("natal_" ++ field) with
  | false, some v => objSet normalized field v
  | _, _ => normalized

/-- Delete half of one `normalizeRenderDataPayload` loop iteration: remove
the `natal_`-prefixed field when present. -/
def renderDataDelete (n1 : JsonObj) (field : String) : JsonObj :=
  if (objGet n1 ("natal_" ++ field)).isSome then objDelete n1 ("natal_" ++ field) else n1

/-- One iteration of the `normalizeRenderDataPayload` loop body: copy, then
delete.  `natalValue` is read from the original `payload`, as in the
source. -/
def renderDataStep (payload : JsonObj) (normalized : JsonObj) (field : String) : JsonObj :=
  renderDataDelete (renderDataCopy payload normalized field) field

/-- `normalizeRenderDataPayload` from the source, with the configuration
argument at its default (`natalPrefix = "natal_"`, the only value the
gateway ever passes). -/
def normalizeRenderDataPayload (payload : JsonObj) : JsonObj :=
  RENDER_DATA_DATE_FIELDS.foldl (renderDataStep payload) payload

/-- `pad2` from the source: `String(value).padStart(2, "0")`. -/
def pad2 (n : Int) : String :=
  let s := toString n
  String.mk (List.replicate (2 - s.length) '0') ++ s

/-- `natal_minute ?? 0` / `natal_second ?? 0` followed by the
`typeof === "number"` check: absent or null default to 0, a number passes
through, anything else fails the check. -/
def resolveMinSec : Option Json → Option Int
  | none => some 0
  | some Json.null => some 0
  | some (Json.num n) => some n
  | some _ => none

/-- The birth-date half of `normalizeSynastryPerson`: when `birth_date` is
falsy and `natal_year` is defined, and year/month/day are all numbers,
compose `YYYY-MM-DD`. -/
def synPersonDate (normalized : JsonObj) : JsonObj :=
  if ¬ jsTruthyOpt (objGet normalized "birth_date") = true ∧ (objGet normalized "natal_year").isSome = true then
    match objGet normalized "natal_year", objGet normalized "natal_month", objGet normalized "natal_day" with
    | some (Json.num y), some (Json.num m), some (Json.num d) =>
        objSet normalized "birth_date" (Json.str (toString y ++ "-" ++ pad2 m ++ "-" ++ pad2 d))
    | _, _, _ => normalized
  else normalized

/-- The birth-time half of `normalizeSynastryPerson`: when `birth_time` is
falsy and `natal_hour` is defined, and hour is a number while minute and
second each default to 0 when absent or null, compose `HH:MM:SS`. -/
def synPersonTime (n1 : JsonObj) : JsonObj :=
  if ¬ jsTruthyOpt (objGet n1 "birth_time") = true ∧ (objGet n1 "natal_hour").isSome = true then
    match objGet n1 "natal_hour", resolveMinSec (objGet n1 "natal_minute"), resolveMinSec (objGet n1 "natal_second") with
    | some (Json.num h), some m, some s =>
        objSet n1 "birth_time" (Json.str (pad2 h ++ ":" ++ pad2 m ++ ":" ++ pad2 s))
    | _, _, _ => n1
  else n1

/-- `normalizeSynastryPerson` from the source.  The argument is the raw
JSON value found under the person key (the source spreads it without a
type check). -/
def normalizeSynastryPerson (person : Json) : JsonObj :=
  synPersonTime (synPersonDate (jsSpread person))

/-- The `person_a` half of `normalizeSynastryPayload`: `person_a ?? person1`,
normalized into `person_a` only when truthy and `person_a` is undefined. -/
def synSetA (payload : JsonObj) : JsonObj :=
  match jsCoalesce (objGet payload "person_a") (objGet payload "person1") with
  | some pa =>
      if jsTruthy pa = true ∧ (objGet payload "person_a").isNone = true then
        objSet payload "person_a" (Json.obj (normalizeSynastryPerson pa))
      else payload
  | none => payload

/-- The `person_b` half of `normalizeSynastryPayload`: `person_b ?? person2`
is read from the original `payload`, the undefined-check and the write act
on the current object `n1`. -/
def synSetB (payload n1 : JsonObj) : JsonObj :=
  match jsCoalesce (objGet payload "person_b") (objGet payload "person2") with
  | some pb =>
      if jsTruthy pb = true ∧ (objGet n1 "person_b").isNone = true then
        objSet n1 "person_b" (Json.obj (normalizeSynastryPerson pb))
      else n1
  | none => n1

/-- `normalizeSynastryPayload` from the source. -/
def normalizeSynastryPayload (payload : JsonObj) : JsonObj :=
  synSetB payload (synSetA payload)

/-- JS `String.prototype.trim`, re-implemented structurally over the
character list so that terms reduce definitionally. -/
def jsTrim (s : String) : String :=
  String.mk (((s.data.dropWhile Char.isWhitespace).reverse.dropWhile Char.isWhitespace).reverse)

/-- JS `String.prototype.toUpperCase` (ASCII), structurally. -/
def jsToUpper (s : String) : String :=
  String.mk (s.data.map Char.toUpper)

/-- JS `String.prototype.startsWith`, structurally. -/
def jsStartsWith (s pre : String) : Bool :=
  pre.data.isPrefixOf s.data

/-- Split a character list on a separator character. -/
def splitList (c : Char) : List Char → List (List Char)
  | [] => [[]]
  | x :: xs =>
    match splitList c xs with
    | [] => [[]]
    | h :: t => if x = c then [] :: h :: t else (x :: h) :: t

/-- JS `String.prototype.split` on a one-character separator (every
separator the gateway uses is one character), structurally. -/
def jsSplitOnChar (c : Char) (s : String) : List String :=
  (splitList c s.data).map String.mk

/-- Join strings with a separator character (used for the value part of a
`k=v1=v2` query piece). -/
def joinWith (c : Char) (l : List String) : String :=
  String.mk (List.intercalate [c] (l.map String.data))

/-- Query parameters (`URLSearchParams` contents): ordered name/value pairs. -/
abbrev ParamList := List (String × String)

/-- `params.get(k)`: the first value under the key. -/
def getParam (l : ParamList) (k : String) : Option String :=
  match l with
  | [] => none
  | (k', v) :: rest => if k' = k then some v else getParam rest k

/-- `params.has(k)`. -/
def hasParam (l : ParamList) (k : String) : Bool :=
  (getParam l k).isSome

/-- Remove every pair under the key (part of `URLSearchParams.set`). -/
def removeParam (l : ParamList) (k : String) : ParamList :=
  match l with
  | [] => []
  | (k', v') :: rest => if k' = k then removeParam rest k else (k', v') :: removeParam rest k

/-- `params.set(k, v)`: overwrite the first pair under the key and drop the
rest, or append when the key is absent. -/
def setParam (l : ParamList) (k : String) (v : String) : ParamList :=
  match l with
  | [] => [(k, v)]
  | (k', v') :: rest => if k' = k then (k, v) :: removeParam rest k else (k', v') :: setParam rest k v

/-- `new URLSearchParams(qs)` on an already-extracted query string: split on
`&`, each piece split on the first `=` (missing `=` gives an empty value).
Percent-decoding of characters is not modelled. -/
def parseQueryString (s : String) : ParamList :=
  (jsSplitOnChar '&' s).filterMap fun piece =>
    if piece = "" then none
    else
      match jsSplitOnChar '=' piece with
      | [] => none
      | key :: rest => some (key, joinWith '=' rest)

/-- The loop over a parsed envelope-path query suffix: each entry is added
only when the key is not already present. -/
def mergeParams (base : ParamList) (entries : ParamList) : ParamList :=
  entries.foldl (fun acc kv => if hasParam acc kv.1 = true then acc else setParam acc kv.1 kv.2) base

/-- The loop over `Object.entries(envelope.query)`: null values are skipped,
and each remaining entry is added (stringified) only when the key is not
already present.  (JSON has no `undefined` value, so only the null skip is
modelled.) -/
def mergeEnvQuery (base : ParamList) (entries : JsonObj) : ParamList :=
  entries.foldl
    (fun acc kv =>
      match kv.2 with
      | Json.null => acc
      | v => if hasParam acc kv.1 = true then acc else setParam acc kv.1 (jsString v))
    base

/-- Outcome of `readJsonSafely`: the request carried no JSON body (absent
body or non-JSON content type), carried a JSON body that fails to parse, or
carried a parsed JSON value. -/
inductive RecvBody where
  | noBody : RecvBody
  | malformed : RecvBody
  | parsed (v : Json) : RecvBody

/-- `readJsonSafely` from the source: a parse failure (or missing JSON
content type) yields `undefined` instead of throwing. -/
def readJsonSafely : RecvBody → Option Json
  | RecvBody.parsed v => some v
  | _ => none

/-- An inbound request as the handler observes it: physical method, URL
pathname, physical query parameters (`URLSearchParams(url.search)`), and
the body. -/
structure Req where
  method : String
  pathname : String
  searchParams : ParamList
  body : RecvBody

/-- `const envelope = (incomingBody ?? {}) as ProxyEnvelope`. -/
def envelopeOf (req : Req) : Json :=
  (readJsonSafely req.body).getD (Json.obj [])

/-- JS property access on an arbitrary JSON value (non-objects have no
named properties relevant to the gateway). -/
def envProp (j : Json) (k : String) : Option Json :=
  match j with
  | Json.obj l => objGet l k
  | _ => none

/-- `rawPathFromEnvelope`: the trimmed envelope `path` when it is a string
starting with `/`. -/
def rawPathFromEnvelope (req : Req) : Option String :=
  match envProp (envelopeOf req) "path" with
  | some (Json.str s) => if jsStartsWith (jsTrim s) "/" = true then some (jsTrim s) else none
  | _ => none

/-- `rawMethodFromEnvelope`: the trimmed, uppercased envelope `method` when
it is a non-empty string. -/
def rawMethodFromEnvelope (req : Req) : Option String :=
  match envProp (envelopeOf req) "method" with
  | some (Json.str s) => if jsTrim s = "" then none else some (jsToUpper (jsTrim s))
  | _ => none

/-- `rawPathFromEnvelope.split("?", 2)`: the bare envelope path and the
query-string suffix between the first and second `?`. -/
def envelopePathParts (req : Req) : Option String × Option String :=
  match rawPathFromEnvelope req with
  | some rp =>
      let parts := jsSplitOnChar '?' rp
      (parts.head?, parts.get? 1)
  | none => (none, none)

/-- The effective upstream path: the bare envelope path when present and
not just `/`, else the physical URL pathname. -/
def upstreamPathOf (req : Req) : String :=
  match (envelopePathParts req).1 with
  | some p => if p ≠ "" ∧ p ≠ "/" then p else req.pathname
  | none => req.pathname

/-- `ALLOWED_EXACT_PATHS` from the source. -/
def ALLOWED_EXACT_PATHS : List String :=
  [ "/"
  , "/health"
  , "/api-test"
  , "/api/chat/astral-oracle"
  , "/api/lunar-calendar"
  , "/api/secondary-progressions"
  , "/api/solar-return"
  , "/v1/account/status"
  , "/v1/account/plan"
  , "/v1/account/plan-status"
  , "/v1/ai/cosmic-chat"
  , "/v1/alerts/retrogrades"
  , "/v1/alerts/system"
  , "/v1/astro/chart"
  , "/v1/astro/chart/render-spec"
  , "/v1/astro/composite"
  , "/v1/astro/lunar-phases"
  , "/v1/astro/progressions"
  , "/v1/astro/solar-return"
  , "/v1/astro/synastry"
  , "/v1/astro/transits"
  , "/v1/billing/entitlements"
  , "/v1/billing/status"
  , "/v1/bugs/report"
  , "/v1/chart/distributions"
  , "/v1/chart/natal"
  , "/v1/chart/render-data"
  , "/v1/chart/transits"
  , "/v1/cosmic-timeline/next-7-days"
  , "/v1/cosmic-weather"
  , "/v1/cosmic-weather/range"
  , "/v1/daily/summary"
  , "/v1/dev/login-as"
  , "/v1/diagnostics/ephemeris-check"
  , "/v1/i18n/ptbr"
  , "/v1/i18n/validate"
  , "/v1/insights/areas-activated"
  , "/v1/insights/care-suggestion"
  , "/v1/insights/dominant-theme"
  , "/v1/insights/life-cycles"
  , "/v1/insights/mercury-retrograde"
  , "/v1/insights/solar-return"
  , "/v1/interpretation/natal"
  , "/v1/lunations/calculate"
  , "/v1/moon/timeline"
  , "/v1/notifications/daily"
  , "/v1/oracle/chat"
  , "/v1/progressions/secondary/calculate"
  , "/v1/revolution-solar/current-year"
  , "/v1/solar-return/calculate"
  , "/v1/solar-return/overlay"
  , "/v1/solar-return/timeline"
  , "/v1/synastry/compare"
  , "/v1/system/endpoints"
  , "/v1/system/health"
  , "/v1/system/roadmap"
  , "/v1/telemetry/event"
  , "/v1/time/resolve-tz"
  , "/v1/time/validate-local-datetime"
  , "/v1/transits/events"
  , "/v1/transits/live"
  , "/v1/transits/next-days"
  , "/v1/transits/personal-today"
  ]

/-- `ALLOWED_DYNAMIC_PREFIXES` from the source. -/
def ALLOWED_DYNAMIC_PREFIXES : List String :=
  ["/api/daily-analysis/"]

/-- `isAllowedPath` from the source: exact membership or a dynamic-prefix
match. -/
def isAllowedPath (path : String) : Bool :=
  ALLOWED_EXACT_PATHS.contains path
    || ALLOWED_DYNAMIC_PREFIXES.any (fun pre => jsStartsWith path pre)

/-- The parsed envelope-path query suffix actually merged (empty when the
suffix is absent or the empty string, which is falsy in JS). -/
def envSuffixParams (req : Req) : ParamList :=
  match (envelopePathParts req).2 with
  | some qs => if qs = "" then [] else parseQueryString qs
  | none => []

/-- The entries of the envelope `query` object actually merged (empty
unless `envelope.query` is a truthy value of object type). -/
def envQueryEntries (req : Req) : JsonObj :=
  match envProp (envelopeOf req) "query" with
  | some q => if jsTruthy q = true ∧ isTypeofObject q = true then jsSpread q else []
  | none => []

/-- The forwarded query parameters: physical URL query, then the
envelope-path suffix, then the envelope `query` object, later sources only
for keys not already present. -/
def effectiveQuery (req : Req) : ParamList :=
  let q0 := req.searchParams
  let q1 :=
    match (envelopePathParts req).2 with
    | some qs => if qs = "" then q0 else mergeParams q0 (parseQueryString qs)
    | none => q0
  match envProp (envelopeOf req) "query" with
  | some q => if jsTruthy q = true ∧ isTypeofObject q = true then mergeEnvQuery q1 (jsSpread q) else q1
  | none => q1

/-- `targetMethod`: the envelope method when given, else the physical
method uppercased. -/
def effectiveMethod (req : Req) : String :=
  (rawMethodFromEnvelope req).getD (jsToUpper req.method)

/-- The per-path normalizer dispatch applied to the outgoing payload:
`normalizeRenderDataPayload` for /v1/chart/render-data,
`normalizeSynastryPayload` for /v1/synastry/compare, identity elsewhere. -/
def normalizeForPath (path : String) (payload : Json) : Json :=
  if path = "/v1/chart/render-data" then
    Json.obj (normalizeRenderDataPayload (jsSpread payload))
  else if path = "/v1/synastry/compare" then
    Json.obj (normalizeSynastryPayload (jsSpread payload))
  else payload

/-- The forwarded body: none for GET/HEAD; otherwise the envelope `body`
object when the request is enveloped and carries one, else the parsed
top-level body (or `{}`), run through the per-path normalizer. -/
def effectiveBodyJson (req : Req) : Option Json :=
  if effectiveMethod req ≠ "GET" ∧ effectiveMethod req ≠ "HEAD" then
    let payload0 := (readJsonSafely req.body).getD (Json.obj [])
    let payload :=
      if (rawPathFromEnvelope req).isSome = true then
        match envProp (envelopeOf req) "body" with
        | some b => if jsTruthy b = true ∧ isTypeofObject b = true then b else payload0
        | none => payload0
      else payload0
    some (normalizeForPath (upstreamPathOf req) payload)
  else none

/-- The single upstream HTTP call the gateway issues (headers are passed
through and not modelled). -/
structure UpstreamRequest where
  method : String
  path : String
  query : ParamList
  body : Option Json

/-- What the handler does with a request: reject it locally with a status
and JSON body (no upstream call), or issue one upstream call. -/
inductive ServeResult where
  | reject (status : Nat) (body : Json) : ServeResult
  | forward (r : UpstreamRequest) : ServeResult

/-- The request handler passed to `serve` in the source: allowlist check on
the effective path, then one upstream request assembled from the effective
method, path, query and body. -/
def serve (req : Req) : ServeResult :=
  let upstreamPath := upstreamPathOf req
  if isAllowedPath upstreamPath = false then
    ServeResult.reject 400
      (Json.obj [("detail", Json.str "Path não permitido"), ("path", Json.str upstreamPath)])
  else
    ServeResult.forward
      { method := effectiveMethod req
      , path := upstreamPath
      , query := effectiveQuery req
      , body := effectiveBodyJson req }

/-- Is a JSON value exactly null? -/
def isNull : Json → Bool
  | Json.null => true
  | _ => false

/-- First value under `k` among the envelope-query entries that the merge
loop would consider (null values are skipped before the has-check). -/
def firstNonNull (entries : JsonObj) (k : String) : Option Json :=
  match entries with
  | [] => none
  | (k', v) :: rest =>
      if k' = k ∧ isNull v = false then some v else firstNonNull rest k

section ObjLemmas

theorem objGet_objSet_self (l : JsonObj) (k : String) (v : Json) :
    objGet (objSet l k v) k = some v := by
  induction l with
  | nil => simp [objSet, objGet]
  | cons hd tl ih =>
      obtain ⟨k', v'⟩ := hd
      by_cases h : k' = k <;> simp [objSet, objGet, h, ih]

theorem objGet_objSet_ne (l : JsonObj) (k k' : String) (v : Json) (h : k' ≠ k) :
    objGet (objSet l k' v) k = objGet l k := by
  induction l with
  | nil => simp [objSet, objGet, h]
  | cons hd tl ih =>
      obtain ⟨a, b⟩ := hd
      by_cases ha : a = k' <;> by_cases hb : a = k <;>
        simp_all [objSet, objGet]

theorem objGet_objDelete_self (l : JsonObj) (k : String) :
    objGet (objDelete l k) k = none := by
  induction l with
  | nil => simp [objDelete, objGet]
  | cons hd tl ih =>
      obtain ⟨a, b⟩ := hd
      by_cases ha : a = k <;> simp [objDelete, objGet, ha, ih]

theorem objGet_objDelete_ne (l : JsonObj) (k k' : String) (h : k' ≠ k) :
    objGet (objDelete l k') k = objGet l k := by
  induction l with
  | nil => simp [objDelete, objGet]
  | cons hd tl ih =>
      obtain ⟨a, b⟩ := hd
      by_cases ha : a = k' <;> by_cases hb : a = k <;>
        simp_all [objDelete, objGet]

end ObjLemmas

section ParamLemmas

theorem getParam_removeParam (l : ParamList) (k k' : String) :
    getParam (removeParam l k') k = if k' = k then none else getParam l k := by
  induction l with
  | nil => simp [removeParam, getParam]
  | cons hd tl ih =>
      obtain ⟨a, b⟩ := hd
      by_cases ha : a = k' <;> by_cases hb : a = k <;> by_cases hk : k' = k <;>
        simp_all [removeParam, getParam]

theorem getParam_setParam (l : ParamList) (k k' : String) (v : String) :
    getParam (setParam l k' v) k = if k' = k then some v else getParam l k := by
  induction l with
  | nil => by_cases hk : k' = k <;> simp [setParam, getParam, hk]
  | cons hd tl ih =>
      obtain ⟨a, b⟩ := hd
      by_cases ha : a = k' <;> by_cases hk : k' = k <;> by_cases hb : a = k <;>
        simp_all [setParam, getParam, getParam_removeParam]

theorem mergeParams_cons (base : ParamList) (a b : String) (tl : ParamList) :
    mergeParams base ((a, b) :: tl)
      = mergeParams (if hasParam base a = true then base else setParam base a b) tl := rfl

theorem getParam_mergeParams (base : ParamList) (entries : ParamList) (k : String) :
    getParam (mergeParams base entries) k
      = if hasParam base k = true then getParam base k else getParam entries k := by
  induction entries generalizing base with
  | nil =>
      cases hg : getParam base k with
      | none => simp [mergeParams, hasParam, hg, getParam]
      | some v => simp [mergeParams, hasParam, hg]
  | cons hd tl ih =>
      obtain ⟨a, b⟩ := hd
      rw [mergeParams_cons]
      by_cases hba : hasParam base a = true
      · rw [if_pos hba, ih base]
        by_cases hbk : hasParam base k = true
        · rw [if_pos hbk, if_pos hbk]
        · rw [if_neg hbk, if_neg hbk]
          by_cases hak : a = k
          · subst hak; exact absurd hba hbk
          · simp [getParam, hak]
      · rw [if_neg hba, ih]
        by_cases hak : a = k
        · subst hak
          have hsk : hasParam (setParam base a b) a = true := by
            simp [hasParam, getParam_setParam]
          rw [if_pos hsk, getParam_setParam, if_pos rfl, if_neg hba]
          simp [getParam]
        · have h1 : hasParam (setParam base a b) k = hasParam base k := by
            simp [hasParam, getParam_setParam, hak]
          rw [h1]
          by_cases hbk : hasParam base k = true
          · rw [if_pos hbk, if_pos hbk, getParam_setParam, if_neg hak]
          · rw [if_neg hbk, if_neg hbk]
            simp [getParam, hak]

theorem mergeEnvQuery_cons_null (base : ParamList) (a : String) (tl : JsonObj) :
    mergeEnvQuery base ((a, Json.null) :: tl) = mergeEnvQuery base tl := rfl

theorem mergeEnvQuery_cons_notnull (base : ParamList) (a : String) (b : Json) (tl : JsonObj)
    (h : isNull b = false) :
    mergeEnvQuery base ((a, b) :: tl)
      = mergeEnvQuery (if hasParam base a = true then base else setParam base a (jsString b)) tl := by
  cases b with
  | null => simp [isNull] at h
  | bool x => rfl
  | num x => rfl
  | str x => rfl
  | arr x => rfl
  | obj x => rfl

theorem getParam_mergeEnvQuery (base : ParamList) (entries : JsonObj) (k : String) :
    getParam (mergeEnvQuery base entries) k
      = if hasParam base k = true then getParam base k
        else (firstNonNull entries k).map jsString := by
  induction entries generalizing base with
  | nil =>
      cases hg : getParam base k with
      | none => simp [mergeEnvQuery, hasParam, hg, getParam, firstNonNull]
      | some v => simp [mergeEnvQuery, hasParam, hg]
  | cons hd tl ih =>
      obtain ⟨a, b⟩ := hd
      by_cases hnull : isNull b = true
      · have hb : b = Json.null := by cases b <;> simp_all [isNull]
        subst hb
        rw [mergeEnvQuery_cons_null, ih]
        by_cases hbk : hasParam base k = true
        · rw [if_pos hbk, if_pos hbk]
        · rw [if_neg hbk, if_neg hbk]
          simp [firstNonNull, isNull]
      · have hb : isNull b = false := by
          cases h : isNull b with
          | false => rfl
          | true => exact absurd h hnull
        rw [mergeEnvQuery_cons_notnull base a b tl hb]
        by_cases hba : hasParam base a = true
        · rw [if_pos hba, ih base]
          by_cases hbk : hasParam base k = true
          · rw [if_pos hbk, if_pos hbk]
          · rw [if_neg hbk, if_neg hbk]
            by_cases hak : a = k
            · subst hak; exact absurd hba hbk
            · simp [firstNonNull, hak]
        · rw [if_neg hba, ih]
          by_cases hak : a = k
          · subst hak
            have hsk : hasParam (setParam base a (jsString b)) a = true := by
              simp [hasParam, getParam_setParam]
            rw [if_pos hsk, getParam_setParam, if_pos rfl, if_neg hba]
            simp [firstNonNull, hb]
          · have h1 : hasParam (setParam base a (jsString b)) k = hasParam base k := by
              simp [hasParam, getParam_setParam, hak]
            rw [h1]
            by_cases hbk : hasParam base k = true
            · rw [if_pos hbk, if_pos hbk, getParam_setParam, if_neg hak]
            · rw [if_neg hbk, if_neg hbk]
              simp [firstNonNull, hak]

theorem effectiveQuery_eq (req : Req) :
    effectiveQuery req
      = mergeEnvQuery (mergeParams req.searchParams (envSuffixParams req)) (envQueryEntries req) := by
  unfold effectiveQuery envSuffixParams envQueryEntries
  cases h2 : (envelopePathParts req).2 with
  | none =>
      cases hq : envProp (envelopeOf req) "query" with
      | none => simp [mergeParams, mergeEnvQuery]
      | some q =>
          by_cases hc : jsTruthy q = true ∧ isTypeofObject q = true <;>
            simp [hc, mergeParams, mergeEnvQuery]
  | some qs =>
      by_cases hqs : qs = "" <;>
        cases hq : envProp (envelopeOf req) "query" with
      | none => simp [hqs, mergeParams, mergeEnvQuery]
      | some q =>
          by_cases hc : jsTruthy q = true ∧ isTypeofObject q = true <;>
            simp [hqs, hc, mergeParams, mergeEnvQuery]

end ParamLemmas

section RenderLemmas

theorem ne_natal_self (f : String) : f ≠ "natal_" ++ f := by
  intro h
  have h1 : f.length = ("natal_" ++ f).length := congrArg String.length h
  rw [String.length_append] at h1
  have h2 : ("natal_" : String).length = 6 := rfl
  omega

theorem objGet_renderDataCopy_ne (payload acc : JsonObj) (f k : String) (h1 : k ≠ f) :
    objGet (renderDataCopy payload acc f) k = objGet acc k := by
  unfold renderDataCopy
  cases hh : (objGet acc f).isSome <;> cases hv : objGet payload ("natal_" ++ f) <;>
    simp [objGet_objSet_ne _ _ _ _ (fun h => h1 h.symm)]

theorem renderDataCopy_self_absent (payload acc : JsonObj) (f : String) (v : Json)
    (ha : objGet acc f = none) (hv : objGet payload ("natal_" ++ f) = some v) :
    renderDataCopy payload acc f = objSet acc f v := by
  unfold renderDataCopy
  rw [ha, hv]
  rfl

theorem renderDataCopy_self_present (payload acc : JsonObj) (f : String) (w : Json)
    (ha : objGet acc f = some w) :
    renderDataCopy payload acc f = acc := by
  unfold renderDataCopy
  rw [ha]
  cases hv : objGet payload ("natal_" ++ f) <;> rfl

theorem renderDataCopy_no_natal (payload acc : JsonObj) (f : String)
    (hv : objGet payload ("natal_" ++ f) = none) :
    renderDataCopy payload acc f = acc := by
  unfold renderDataCopy
  rw [hv]
  cases hh : (objGet acc f).isSome <;> rfl

theorem objGet_renderDataDelete_natal (n1 : JsonObj) (f : String) :
    objGet (renderDataDelete n1 f) ("natal_" ++ f) = none := by
  unfold renderDataDelete
  cases hd : objGet n1 ("natal_" ++ f) with
  | none => simp [hd]
  | some v => simp [hd, objGet_objDelete_self]

theorem objGet_renderDataDelete_ne (n1 : JsonObj) (f k : String) (h2 : k ≠ "natal_" ++ f) :
    objGet (renderDataDelete n1 f) k = objGet n1 k := by
  unfold renderDataDelete
  cases hd : (objGet n1 ("natal_" ++ f)).isSome <;>
    simp [objGet_objDelete_ne _ _ _ (fun h => h2 h.symm)]

theorem renderDataDelete_id (n1 : JsonObj) (f : String)
    (h : objGet n1 ("natal_" ++ f) = none) :
    renderDataDelete n1 f = n1 := by
  unfold renderDataDelete
  rw [h]
  rfl

theorem objGet_renderDataStep_ne (payload acc : JsonObj) (f k : String)
    (h1 : k ≠ f) (h2 : k ≠ "natal_" ++ f) :
    objGet (renderDataStep payload acc f) k = objGet acc k := by
  unfold renderDataStep
  rw [objGet_renderDataDelete_ne _ _ _ h2, objGet_renderDataCopy_ne _ _ _ _ h1]

theorem objGet_renderDataStep_natal (payload acc : JsonObj) (f : String) :
    objGet (renderDataStep payload acc f) ("natal_" ++ f) = none :=
  objGet_renderDataDelete_natal _ _

theorem objGet_renderDataStep_self_absent (payload acc : JsonObj) (f : String) (v : Json)
    (ha : objGet acc f = none) (hv : objGet payload ("natal_" ++ f) = some v) :
    objGet (renderDataStep payload acc f) f = some v := by
  unfold renderDataStep
  rw [objGet_renderDataDelete_ne _ _ _ (ne_natal_self f),
    renderDataCopy_self_absent _ _ _ _ ha hv, objGet_objSet_self]

theorem objGet_renderDataStep_self_present (payload acc : JsonObj) (f : String) (w : Json)
    (ha : objGet acc f = some w) :
    objGet (renderDataStep payload acc f) f = some w := by
  unfold renderDataStep
  rw [objGet_renderDataDelete_ne _ _ _ (ne_natal_self f),
    renderDataCopy_self_present _ _ _ _ ha, ha]

theorem renderDataStep_id (payload acc : JsonObj) (f : String)
    (hv : objGet payload ("natal_" ++ f) = none)
    (hacc : objGet acc ("natal_" ++ f) = none) :
    renderDataStep payload acc f = acc := by
  unfold renderDataStep
  rw [renderDataCopy_no_natal _ _ _ hv, renderDataDelete_id _ _ hacc]

theorem renderFold_get_other :
    ∀ (L : List String) (payload acc : JsonObj) (k : String),
      k ∉ L → (∀ g ∈ L, k ≠ "natal_" ++ g) →
      objGet (L.foldl (renderDataStep payload) acc) k = objGet acc k := by
  intro L
  induction L with
  | nil => intro payload acc k h1 h2; rfl
  | cons g T ih =>
      intro payload acc k h1 h2
      have hkg : k ≠ g := fun h => h1 (h ▸ List.mem_cons_self g T)
      show objGet (T.foldl (renderDataStep payload) (renderDataStep payload acc g)) k = objGet acc k
      rw [ih payload _ k (fun h => h1 (List.mem_cons_of_mem g h))
        (fun x hx => h2 x (List.mem_cons_of_mem g hx))]
      exact objGet_renderDataStep_ne _ _ _ _ hkg (h2 g (List.mem_cons_self g T))

theorem renderFold_natal_none :
    ∀ (L : List String) (payload acc : JsonObj) (f : String),
      f ∈ L → L.Nodup → ("natal_" ++ f) ∉ L →
      (∀ g ∈ L, g ≠ f → "natal_" ++ f ≠ "natal_" ++ g) →
      objGet (L.foldl (renderDataStep payload) acc) ("natal_" ++ f) = none := by
  intro L
  induction L with
  | nil => intro payload acc f hf _ _ _; cases hf
  | cons g T ih =>
      intro payload acc f hf hnd hno hinj
      by_cases hgf : g = f
      · subst hgf
        have hgT : g ∉ T := (List.nodup_cons.mp hnd).1
        show objGet (T.foldl (renderDataStep payload) (renderDataStep payload acc g)) ("natal_" ++ g) = none
        rw [renderFold_get_other T payload _ _
          (fun h => hno (List.mem_cons_of_mem g h))
          (fun x hx => hinj x (List.mem_cons_of_mem g hx) (fun he => hgT (he ▸ hx)))]
        exact objGet_renderDataStep_natal _ _ _
      · have hfT : f ∈ T := by
          cases hf with
          | head => exact absurd rfl hgf
          | tail _ h => exact h
        exact ih payload _ f hfT (List.nodup_cons.mp hnd).2
          (fun h => hno (List.mem_cons_of_mem g h))
          (fun x hx hne => hinj x (List.mem_cons_of_mem g hx) hne)

theorem renderFold_field_present :
    ∀ (L : List String) (payload acc : JsonObj) (f : String) (w : Json),
      f ∈ L → L.Nodup → (∀ g ∈ L, f ≠ "natal_" ++ g) →
      objGet acc f = some w →
      objGet (L.foldl (renderDataStep payload) acc) f = some w := by
  intro L
  induction L with
  | nil => intro payload acc f w hf _ _ _; cases hf
  | cons g T ih =>
      intro payload acc f w hf hnd hne ha
      by_cases hgf : g = f
      · subst hgf
        have hgT : g ∉ T := (List.nodup_cons.mp hnd).1
        show objGet (T.foldl (renderDataStep payload) (renderDataStep payload acc g)) g = some w
        rw [renderFold_get_other T payload _ _ hgT
          (fun x hx => hne x (List.mem_cons_of_mem g hx))]
        exact objGet_renderDataStep_self_present _ _ _ _ ha
      · have hfT : f ∈ T := by
          cases hf with
          | head => exact absurd rfl hgf
          | tail _ h => exact h
        have hfg : f ≠ g := fun h => hgf h.symm
        refine ih payload _ f w hfT (List.nodup_cons.mp hnd).2
          (fun x hx => hne x (List.mem_cons_of_mem g hx)) ?_
        rw [objGet_renderDataStep_ne _ _ _ _ hfg (hne g (List.mem_cons_self g T))]
        exact ha

theorem renderFold_field_absent :
    ∀ (L : List String) (payload acc : JsonObj) (f : String) (v : Json),
      f ∈ L → L.Nodup → (∀ g ∈ L, f ≠ "natal_" ++ g) →
      objGet acc f = none → objGet payload ("natal_" ++ f) = some v →
      objGet (L.foldl (renderDataStep payload) acc) f = some v := by
  intro L
  induction L with
  | nil => intro payload acc f v hf _ _ _ _; cases hf
  | cons g T ih =>
      intro payload acc f v hf hnd hne ha hv
      by_cases hgf : g = f
      · subst hgf
        have hgT : g ∉ T := (List.nodup_cons.mp hnd).1
        show objGet (T.foldl (renderDataStep payload) (renderDataStep payload acc g)) g = some v
        rw [renderFold_get_other T payload _ _ hgT
          (fun x hx => hne x (List.mem_cons_of_mem g hx))]
        exact objGet_renderDataStep_self_absent _ _ _ _ ha hv
      · have hfT : f ∈ T := by
          cases hf with
          | head => exact absurd rfl hgf
          | tail _ h => exact h
        have hfg : f ≠ g := fun h => hgf h.symm
        refine ih payload _ f v hfT (List.nodup_cons.mp hnd).2
          (fun x hx => hne x (List.mem_cons_of_mem g hx)) ?_ hv
        rw [objGet_renderDataStep_ne _ _ _ _ hfg (hne g (List.mem_cons_self g T))]
        exact ha

theorem renderFold_id :
    ∀ (L : List String) (payload acc : JsonObj),
      (∀ g ∈ L, objGet payload ("natal_" ++ g) = none) →
      (∀ g ∈ L, objGet acc ("natal_" ++ g) = none) →
      L.foldl (renderDataStep payload) acc = acc := by
  intro L
  induction L with
  | nil => intro payload acc _ _; rfl
  | cons g T ih =>
      intro payload acc hpay hacc
      show T.foldl (renderDataStep payload) (renderDataStep payload acc g) = acc
      rw [renderDataStep_id _ _ _ (hpay g (List.mem_cons_self g T)) (hacc g (List.mem_cons_self g T))]
      exact ih payload acc (fun x hx => hpay x (List.mem_cons_of_mem g hx))
        (fun x hx => hacc x (List.mem_cons_of_mem g hx))

theorem normalizeRenderDataPayload_natal_none (p : JsonObj) :
    ∀ f ∈ RENDER_DATA_DATE_FIELDS,
      objGet (normalizeRenderDataPayload p) ("natal_" ++ f) = none := by
  intro f hf
  fin_cases hf <;>
    exact renderFold_natal_none RENDER_DATA_DATE_FIELDS p p _ (by decide) (by decide)
      (by decide) (by decide)

end RenderLemmas

section SynastryLemmas

theorem objGet_synPersonDate_ne (l : JsonObj) (k : String) (hk : k ≠ "birth_date") :
    objGet (synPersonDate l) k = objGet l k := by
  unfold synPersonDate
  split
  · split
    · rw [objGet_objSet_ne _ _ _ _ (fun h => hk h.symm)]
    · rfl
  · rfl

theorem objGet_synPersonTime_ne (l : JsonObj) (k : String) (hk : k ≠ "birth_time") :
    objGet (synPersonTime l) k = objGet l k := by
  unfold synPersonTime
  split
  · split
    · rw [objGet_objSet_ne _ _ _ _ (fun h => hk h.symm)]
    · rfl
  · rfl

theorem objGet_synSetA_ne (p : JsonObj) (k : String) (hk : k ≠ "person_a") :
    objGet (synSetA p) k = objGet p k := by
  unfold synSetA
  split
  · split
    · rw [objGet_objSet_ne _ _ _ _ (fun h => hk h.symm)]
    · rfl
  · rfl

theorem objGet_synSetB_ne (p n1 : JsonObj) (k : String) (hk : k ≠ "person_b") :
    objGet (synSetB p n1) k = objGet n1 k := by
  unfold synSetB
  split
  · split
    · rw [objGet_objSet_ne _ _ _ _ (fun h => hk h.symm)]
    · rfl
  · rfl

theorem synSetA_of_present (p : JsonObj) (h : (objGet p "person_a").isNone = false) :
    synSetA p = p := by
  unfold synSetA
  cases hA : jsCoalesce (objGet p "person_a") (objGet p "person1") with
  | none => rfl
  | some pa =>
      have hneg : ¬(jsTruthy pa = true ∧ (objGet p "person_a").isNone = true) := by
        intro hc
        rw [h] at hc
        exact Bool.noConfusion hc.2
      show (if jsTruthy pa = true ∧ (objGet p "person_a").isNone = true then
          objSet p "person_a" (Json.obj (normalizeSynastryPerson pa)) else p) = p
      rw [if_neg hneg]

theorem synSetB_of_present (p n1 : JsonObj) (h : (objGet n1 "person_b").isNone = false) :
    synSetB p n1 = n1 := by
  unfold synSetB
  cases hB : jsCoalesce (objGet p "person_b") (objGet p "person2") with
  | none => rfl
  | some pb =>
      have hneg : ¬(jsTruthy pb = true ∧ (objGet n1 "person_b").isNone = true) := by
        intro hc
        rw [h] at hc
        exact Bool.noConfusion hc.2
      show (if jsTruthy pb = true ∧ (objGet n1 "person_b").isNone = true then
          objSet n1 "person_b" (Json.obj (normalizeSynastryPerson pb)) else n1) = n1
      rw [if_neg hneg]

theorem synSetA_eq_none (p : JsonObj)
    (h : jsCoalesce (objGet p "person_a") (objGet p "person1") = none) :
    synSetA p = p := by
  unfold synSetA
  rw [h]

theorem synSetA_eq_some (p : JsonObj) (pa : Json)
    (h : jsCoalesce (objGet p "person_a") (objGet p "person1") = some pa) :
    synSetA p
      = if jsTruthy pa = true ∧ (objGet p "person_a").isNone = true then
          objSet p "person_a" (Json.obj (normalizeSynastryPerson pa))
        else p := by
  unfold synSetA
  rw [h]

theorem synSetB_eq_none (p n1 : JsonObj)
    (h : jsCoalesce (objGet p "person_b") (objGet p "person2") = none) :
    synSetB p n1 = n1 := by
  unfold synSetB
  rw [h]

theorem synSetB_eq_some (p n1 : JsonObj) (pb : Json)
    (h : jsCoalesce (objGet p "person_b") (objGet p "person2") = some pb) :
    synSetB p n1
      = if jsTruthy pb = true ∧ (objGet n1 "person_b").isNone = true then
          objSet n1 "person_b" (Json.obj (normalizeSynastryPerson pb))
        else n1 := by
  unfold synSetB
  rw [h]

theorem jsCoalesce_none (b : Option Json) : jsCoalesce none b = b := rfl

end SynastryLemmas

section ServeHelpers

theorem serve_forward_fields (req : Req) (u : UpstreamRequest)
    (hf : serve req = ServeResult.forward u) :
    u = { method := effectiveMethod req, path := upstreamPathOf req
        , query := effectiveQuery req, body := effectiveBodyJson req } := by
  simp only [serve] at hf
  by_cases hA : isAllowedPath (upstreamPathOf req) = false
  · rw [if_pos hA] at hf
    exact ServeResult.noConfusion hf
  · rw [if_neg hA] at hf
    exact (ServeResult.forward.inj hf).symm

theorem normalizeSynastryPayload_idem (p : JsonObj) :
    normalizeSynastryPayload (normalizeSynastryPayload p) = normalizeSynastryPayload p := by
  have hdef : ∀ r : JsonObj, normalizeSynastryPayload r = synSetB r (synSetA r) := fun _ => rfl
  have hqa : objGet (normalizeSynastryPayload p) "person_a" = objGet (synSetA p) "person_a" := by
    rw [hdef p]
    exact objGet_synSetB_ne _ _ _ (by decide)
  have hq1 : objGet (normalizeSynastryPayload p) "person1" = objGet p "person1" := by
    rw [hdef p, objGet_synSetB_ne _ _ _ (by decide), objGet_synSetA_ne _ _ (by decide)]
  have hApart : synSetA (normalizeSynastryPayload p) = normalizeSynastryPayload p := by
    cases hA : jsCoalesce (objGet p "person_a") (objGet p "person1") with
    | none =>
        have hAp : synSetA p = p := synSetA_eq_none p hA
        have hqa' : objGet (normalizeSynastryPayload p) "person_a" = objGet p "person_a" := by
          rw [hqa, hAp]
        apply synSetA_eq_none
        rw [hqa', hq1]
        exact hA
    | some pa =>
        by_cases hg : jsTruthy pa = true ∧ (objGet p "person_a").isNone = true
        · have hAp : synSetA p = objSet p "person_a" (Json.obj (normalizeSynastryPerson pa)) := by
            rw [synSetA_eq_some p pa hA, if_pos hg]
          have hqa' : objGet (normalizeSynastryPayload p) "person_a"
              = some (Json.obj (normalizeSynastryPerson pa)) := by
            rw [hqa, hAp, objGet_objSet_self]
          exact synSetA_of_present _ (by rw [hqa']; rfl)
        · have hAp : synSetA p = p := by
            rw [synSetA_eq_some p pa hA, if_neg hg]
          have hqa' : objGet (normalizeSynastryPayload p) "person_a" = objGet p "person_a" := by
            rw [hqa, hAp]
          have hcoq : jsCoalesce (objGet (normalizeSynastryPayload p) "person_a")
              (objGet (normalizeSynastryPayload p) "person1") = some pa := by
            rw [hqa', hq1]
            exact hA
          have hgq : ¬(jsTruthy pa = true
              ∧ (objGet (normalizeSynastryPayload p) "person_a").isNone = true) := by
            intro hc
            exact hg ⟨hc.1, hqa' ▸ hc.2⟩
          rw [synSetA_eq_some _ pa hcoq, if_neg hgq]
  have hnb : objGet (synSetA p) "person_b" = objGet p "person_b" :=
    objGet_synSetA_ne _ _ (by decide)
  have hn2 : objGet (synSetA p) "person2" = objGet p "person2" :=
    objGet_synSetA_ne _ _ (by decide)
  have hBpart : synSetB (normalizeSynastryPayload p) (normalizeSynastryPayload p)
      = normalizeSynastryPayload p := by
    cases hB : jsCoalesce (objGet p "person_b") (objGet p "person2") with
    | none =>
        have hBp : normalizeSynastryPayload p = synSetA p := by
          rw [hdef p]
          exact synSetB_eq_none p _ hB
        have hqb : objGet (normalizeSynastryPayload p) "person_b" = objGet p "person_b" := by
          rw [hBp, hnb]
        have hq2 : objGet (normalizeSynastryPayload p) "person2" = objGet p "person2" := by
          rw [hBp, hn2]
        apply synSetB_eq_none
        rw [hqb, hq2]
        exact hB
    | some pb =>
        by_cases hg : jsTruthy pb = true ∧ (objGet (synSetA p) "person_b").isNone = true
        · have hBp : normalizeSynastryPayload p
              = objSet (synSetA p) "person_b" (Json.obj (normalizeSynastryPerson pb)) := by
            rw [hdef p, synSetB_eq_some p _ pb hB, if_pos hg]
          have hqb : objGet (normalizeSynastryPayload p) "person_b"
              = some (Json.obj (normalizeSynastryPerson pb)) := by
            rw [hBp, objGet_objSet_self]
          exact synSetB_of_present _ _ (by rw [hqb]; rfl)
        · have hBp : normalizeSynastryPayload p = synSetA p := by
            rw [hdef p, synSetB_eq_some p _ pb hB, if_neg hg]
          have hqb : objGet (normalizeSynastryPayload p) "person_b" = objGet p "person_b" := by
            rw [hBp, hnb]
          have hq2 : objGet (normalizeSynastryPayload p) "person2" = objGet p "person2" := by
            rw [hBp, hn2]
          have hcoq : jsCoalesce (objGet (normalizeSynastryPayload p) "person_b")
              (objGet (normalizeSynastryPayload p) "person2") = some pb := by
            rw [hqb, hq2]
            exact hB
          have hgq : ¬(jsTruthy pb = true
              ∧ (objGet (normalizeSynastryPayload p) "person_b").isNone = true) := by
            intro hc
            apply hg
            refine ⟨hc.1, ?_⟩
            rw [hnb, ← hqb]
            exact hc.2
          rw [synSetB_eq_some _ _ pb hcoq, if_neg hgq]
  show synSetB (normalizeSynastryPayload p) (synSetA (normalizeSynastryPayload p))
      = normalizeSynastryPayload p
  rw [hApart]
  exact hBpart

end ServeHelpers

section ClaimInputs

/-- C1 witness input: a GET for a path outside the allowlist. -/
def c1req : Req :=
  { method := "GET", pathname := "/evil", searchParams := [], body := RecvBody.noBody }

/-- C2 input: physical GET /ignored carrying the full envelope. -/
def c2req : Req :=
  { method := "GET"
  , pathname := "/ignored"
  , searchParams := []
  , body := RecvBody.parsed (Json.obj
      [ ("path", Json.str "/v1/chart/natal?x=1")
      , ("method", Json.str "post")
      , ("body", Json.obj [("a", Json.num 1)])
      , ("query", Json.obj [("b", Json.str "2")]) ]) }

/-- C3 witness input: keys overlapping across all three query sources. -/
def c3req : Req :=
  { method := "GET"
  , pathname := "/ignored"
  , searchParams := [("p", "1"), ("x", "phys")]
  , body := RecvBody.parsed (Json.obj
      [ ("path", Json.str "/v1/chart/natal?x=sfx&s=2")
      , ("query", Json.obj [("x", Json.str "q"), ("s", Json.str "q2"), ("t", Json.num 3)]) ]) }

/-- C4 input: a physical GET to an allowlisted path with a flat JSON body. -/
def c4req : Req :=
  { method := "GET", pathname := "/v1/daily/summary", searchParams := []
  , body := RecvBody.parsed (Json.obj [("a", Json.num 1)]) }

/-- The upstream request the gateway issues for `c4req`. -/
def c4fwd : UpstreamRequest :=
  { method := "GET", path := "/v1/daily/summary", query := [], body := none }

/-- C6 input: the legacy `person1` payload from the specification example. -/
def c6p : JsonObj :=
  [("person1", Json.obj
    [ ("natal_year", Json.num 1990), ("natal_month", Json.num 1), ("natal_day", Json.num 2)
    , ("natal_hour", Json.num 3), ("natal_minute", Json.num 4), ("natal_second", Json.num 5) ])]

/-- C8 witness input: a POST with a JSON body that fails to parse. -/
def c8req : Req :=
  { method := "POST", pathname := "/v1/chart/render-data", searchParams := []
  , body := RecvBody.malformed }

/-- The upstream request the gateway issues for `c8req`. -/
def c8fwd : UpstreamRequest :=
  { method := "POST", path := "/v1/chart/render-data", query := [], body := some (Json.obj []) }

/-- C10 witness input: physical POST with a flat body carrying a `method`
field but no `path` field. -/
def c10req : Req :=
  { method := "POST", pathname := "/v1/daily/summary", searchParams := []
  , body := RecvBody.parsed (Json.obj [("method", Json.str "get"), ("a", Json.num 1)]) }

/-- The upstream request the gateway issues for `c10req`. -/
def c10fwd : UpstreamRequest :=
  { method := "GET", path := "/v1/daily/summary", query := [], body := none }

end ClaimInputs

/-- C1: whenever the effective upstream path is not allowlisted, the
handler returns the 400 rejection whose JSON body carries a `detail`
message and the rejected path, and the result is not a `forward`, i.e. no
upstream call is issued. -/
theorem allowlist_rejects_unlisted_path (req : Req)
    (h : isAllowedPath (upstreamPathOf req) = false) :
    serve req = ServeResult.reject 400 (Json.obj
      [("detail", Json.str "Path não permitido"), ("path", Json.str (upstreamPathOf req))]) := by
  simp only [serve]
  rw [if_pos h]

theorem allowlist_rejects_unlisted_path_witness :
    isAllowedPath (upstreamPathOf c1req) = false ∧
    serve c1req = ServeResult.reject 400 (Json.obj
      [("detail", Json.str "Path não permitido"), ("path", Json.str (upstreamPathOf c1req))]) :=
  ⟨rfl, allowlist_rejects_unlisted_path c1req rfl⟩

/-- C2: the envelope example resolves to POST /v1/chart/natal with merged
query x=1, b=2 and the envelope body forwarded. -/
theorem envelope_resolution_example :
    serve c2req = ServeResult.forward
      { method := "POST", path := "/v1/chart/natal"
      , query := [("x", "1"), ("b", "2")]
      , body := some (Json.obj [("a", Json.num 1)]) } := rfl

/-- C3: first writer wins across the three query sources — physical URL
query over envelope-path suffix over envelope query object — and the
forwarded query is exactly that merge. -/
theorem query_merge_priority (req : Req) (k : String) :
    (hasParam req.searchParams k = true →
      getParam (effectiveQuery req) k = getParam req.searchParams k)
    ∧ (hasParam req.searchParams k = false → hasParam (envSuffixParams req) k = true →
      getParam (effectiveQuery req) k = getParam (envSuffixParams req) k)
    ∧ (hasParam req.searchParams k = false → hasParam (envSuffixParams req) k = false →
      ∀ v, firstNonNull (envQueryEntries req) k = some v →
      getParam (effectiveQuery req) k = some (jsString v))
    ∧ (∀ u, serve req = ServeResult.forward u → u.query = effectiveQuery req) := by
  refine ⟨?_, ?_, ?_, ?_⟩
  · intro h1
    rw [effectiveQuery_eq req, getParam_mergeEnvQuery]
    have hgm : getParam (mergeParams req.searchParams (envSuffixParams req)) k
        = getParam req.searchParams k := by
      rw [getParam_mergeParams, if_pos h1]
    have hbm : hasParam (mergeParams req.searchParams (envSuffixParams req)) k = true := by
      unfold hasParam
      rw [hgm]
      exact h1
    rw [if_pos hbm, hgm]
  · intro h1 h2
    rw [effectiveQuery_eq req, getParam_mergeEnvQuery]
    have hgm : getParam (mergeParams req.searchParams (envSuffixParams req)) k
        = getParam (envSuffixParams req) k := by
      rw [getParam_mergeParams, if_neg (by simp [h1])]
    have hbm : hasParam (mergeParams req.searchParams (envSuffixParams req)) k = true := by
      unfold hasParam
      rw [hgm]
      exact h2
    rw [if_pos hbm, hgm]
  · intro h1 h2 v hv
    rw [effectiveQuery_eq req, getParam_mergeEnvQuery]
    have hgm : getParam (mergeParams req.searchParams (envSuffixParams req)) k
        = getParam (envSuffixParams req) k := by
      rw [getParam_mergeParams, if_neg (by simp [h1])]
    have hnone : getParam (envSuffixParams req) k = none := by
      cases hq : getParam (envSuffixParams req) k with
      | none => rfl
      | some w =>
          have h2' := h2
          unfold hasParam at h2'
          rw [hq] at h2'
          exact Bool.noConfusion h2'
    have hbm : hasParam (mergeParams req.searchParams (envSuffixParams req)) k = false := by
      unfold hasParam
      rw [hgm, hnone]
      rfl
    rw [if_neg (by simp [hbm]), hv]
    rfl
  · intro u hf
    rw [serve_forward_fields req u hf]

theorem query_merge_priority_witness :
    getParam (effectiveQuery c3req) "x" = getParam c3req.searchParams "x"
    ∧ getParam (effectiveQuery c3req) "s" = getParam (envSuffixParams c3req) "s"
    ∧ getParam (effectiveQuery c3req) "t" = some (jsString (Json.num 3)) :=
  ⟨(query_merge_priority c3req "x").1 rfl,
   (query_merge_priority c3req "s").2.1 rfl rfl,
   (query_merge_priority c3req "t").2.2.1 rfl rfl (Json.num 3) rfl⟩

/-- C4 counterexample: a physical GET with flat JSON body a=1 to an
allowlisted path is forwarded with an EMPTY query — the body key/value
pairs are not folded into the query parameters, contradicting the claim. -/
theorem get_body_folding_counterexample :
    serve c4req = ServeResult.forward c4fwd ∧ getParam c4fwd.query "a" = none :=
  ⟨rfl, rfl⟩

/-- C4 amended: for GET/HEAD effective methods no body is forwarded
upstream, and the forwarded query is exactly the three-source merge — the
request body is dropped, not folded into the query. -/
theorem get_head_forwards_no_body (req : Req) (u : UpstreamRequest)
    (hm : effectiveMethod req = "GET" ∨ effectiveMethod req = "HEAD")
    (hf : serve req = ServeResult.forward u) :
    u.body = none ∧ u.query = effectiveQuery req := by
  have hbody : effectiveBodyJson req = none := by
    unfold effectiveBodyJson
    rw [if_neg]
    intro hc
    rcases hm with hm | hm
    · exact hc.1 hm
    · exact hc.2 hm
  rw [serve_forward_fields req u hf]
  exact ⟨hbody, rfl⟩

theorem get_head_forwards_no_body_witness :
    c4fwd.body = none ∧ c4fwd.query = effectiveQuery c4req :=
  get_head_forwards_no_body c4req c4fwd (Or.inl rfl) rfl

/-- C5: the date-component normalizer copies natal-prefixed values into
absent bare fields, never overwrites present bare fields, removes every
natal-prefixed date key, leaves all other keys unchanged, and normalizes
the two specification examples as stated. -/
theorem render_data_normalizer_spec (p : JsonObj) (f : String)
    (hf : f ∈ RENDER_DATA_DATE_FIELDS) :
    ((objGet p f = none → ∀ v, objGet p ("natal_" ++ f) = some v →
        objGet (normalizeRenderDataPayload p) f = some v)
      ∧ (∀ w, objGet p f = some w → objGet (normalizeRenderDataPayload p) f = some w)
      ∧ objGet (normalizeRenderDataPayload p) ("natal_" ++ f) = none)
    ∧ (∀ k, k ∉ RENDER_DATA_DATE_FIELDS →
        (∀ g ∈ RENDER_DATA_DATE_FIELDS, k ≠ "natal_" ++ g) →
        objGet (normalizeRenderDataPayload p) k = objGet p k)
    ∧ normalizeRenderDataPayload
        [("natal_year", Json.num 1995), ("natal_month", Json.num 11), ("natal_day", Json.num 7)]
        = [("year", Json.num 1995), ("month", Json.num 11), ("day", Json.num 7)]
    ∧ normalizeRenderDataPayload [("year", Json.num 2000), ("natal_year", Json.num 1995)]
        = [("year", Json.num 2000)] := by
  refine ⟨?_, ?_, rfl, rfl⟩
  · fin_cases hf <;>
      exact ⟨fun ha v hv => renderFold_field_absent RENDER_DATA_DATE_FIELDS p p _ v
          (by decide) (by decide) (by decide) ha hv,
        fun w hw => renderFold_field_present RENDER_DATA_DATE_FIELDS p p _ w
          (by decide) (by decide) (by decide) hw,
        renderFold_natal_none RENDER_DATA_DATE_FIELDS p p _
          (by decide) (by decide) (by decide) (by decide)⟩
  · intro k hk hkn
    exact renderFold_get_other RENDER_DATA_DATE_FIELDS p p k hk hkn

theorem render_data_normalizer_spec_witness :
    objGet (normalizeRenderDataPayload [("natal_month", Json.num 11)]) "month"
      = some (Json.num 11) :=
  (render_data_normalizer_spec [("natal_month", Json.num 11)] "month"
    (by decide)).1.1 rfl (Json.num 11) rfl

/-- C6: the dual-person normalizer composes person_a.birth_date
"1990-01-02" and person_a.birth_time "03:04:05" from the person1 example,
and never overwrites a person_a or person_b key already present. -/
theorem synastry_payload_normalization :
    ((objGet (normalizeSynastryPayload c6p) "person_a").bind (fun v => envProp v "birth_date")
        = some (Json.str "1990-01-02")
      ∧ (objGet (normalizeSynastryPayload c6p) "person_a").bind (fun v => envProp v "birth_time")
        = some (Json.str "03:04:05"))
    ∧ (∀ p : JsonObj, ∀ v, objGet p "person_a" = some v →
        objGet (normalizeSynastryPayload p) "person_a" = some v)
    ∧ (∀ p : JsonObj, ∀ v, objGet p "person_b" = some v →
        objGet (normalizeSynastryPayload p) "person_b" = some v) := by
  refine ⟨⟨rfl, rfl⟩, ?_, ?_⟩
  · intro p v hv
    show objGet (synSetB p (synSetA p)) "person_a" = some v
    rw [objGet_synSetB_ne _ _ _ (by decide), synSetA_of_present p (by rw [hv]; rfl), hv]
  · intro p v hv
    show objGet (synSetB p (synSetA p)) "person_b" = some v
    have h1 : objGet (synSetA p) "person_b" = some v := by
      rw [objGet_synSetA_ne _ _ (by decide), hv]
    rw [synSetB_of_present p _ (by rw [h1]; rfl), h1]

theorem synastry_payload_normalization_witness :
    objGet (normalizeSynastryPayload [("person_a", Json.str "keep")]) "person_a"
      = some (Json.str "keep") :=
  synastry_payload_normalization.2.1 [("person_a", Json.str "keep")] (Json.str "keep") rfl

/-- C7: both payload normalizers are total Lean functions (purity and
totality hold by construction of the embedding) and idempotent on every
JSON object payload. -/
theorem normalizers_idempotent (p : JsonObj) :
    normalizeRenderDataPayload (normalizeRenderDataPayload p) = normalizeRenderDataPayload p
    ∧ normalizeSynastryPayload (normalizeSynastryPayload p) = normalizeSynastryPayload p :=
  ⟨renderFold_id RENDER_DATA_DATE_FIELDS (normalizeRenderDataPayload p)
      (normalizeRenderDataPayload p)
      (normalizeRenderDataPayload_natal_none p) (normalizeRenderDataPayload_natal_none p),
   normalizeSynastryPayload_idem p⟩

/-- C8: a request whose body fails to parse is served exactly like the
same request with no body at all, and for non-GET/HEAD effective methods
on an allowed path the forwarded body is the empty JSON object. -/
theorem malformed_body_recovery (req : Req) (hb : req.body = RecvBody.malformed) :
    serve req = serve { method := req.method, pathname := req.pathname
                      , searchParams := req.searchParams, body := RecvBody.noBody }
    ∧ (effectiveMethod req ≠ "GET" → effectiveMethod req ≠ "HEAD" →
        ∀ u, serve req = ServeResult.forward u → u.body = some (Json.obj [])) := by
  obtain ⟨m, pn, sp, b⟩ := req
  cases hb
  constructor
  · rfl
  · intro hg hh u hf
    have hnf : normalizeForPath (upstreamPathOf ⟨m, pn, sp, RecvBody.malformed⟩) (Json.obj [])
        = Json.obj [] := by
      unfold normalizeForPath
      split
      · rfl
      · split
        · rfl
        · rfl
    have hbody : effectiveBodyJson ⟨m, pn, sp, RecvBody.malformed⟩ = some (Json.obj []) := by
      unfold effectiveBodyJson
      rw [if_pos ⟨hg, hh⟩]
      show some (normalizeForPath (upstreamPathOf ⟨m, pn, sp, RecvBody.malformed⟩) (Json.obj []))
          = some (Json.obj [])
      rw [hnf]
    rw [serve_forward_fields _ u hf]
    exact hbody

theorem malformed_body_recovery_witness :
    serve c8req = serve { method := "POST", pathname := "/v1/chart/render-data"
                        , searchParams := [], body := RecvBody.noBody }
    ∧ c8fwd.body = some (Json.obj []) := by
  have h := malformed_body_recovery c8req rfl
  exact ⟨h.1, h.2 (by decide) (by decide) c8fwd rfl⟩

/-- C9: when birth_date is absent and the year/month/day natal numbers are
not all present, the person normalizer leaves birth_date absent; likewise
birth_time stays absent when the hour/minute/second components cannot be
resolved to numbers. -/
theorem synastry_person_partial_components (l : JsonObj) :
    (objGet l "birth_date" = none →
      (∀ y m d : Int, ¬(objGet l "natal_year" = some (Json.num y)
        ∧ objGet l "natal_month" = some (Json.num m)
        ∧ objGet l "natal_day" = some (Json.num d))) →
      objGet (normalizeSynastryPerson (Json.obj l)) "birth_date" = none)
    ∧ (objGet l "birth_time" = none →
      (∀ h0 m0 s0 : Int, ¬(objGet l "natal_hour" = some (Json.num h0)
        ∧ resolveMinSec (objGet l "natal_minute") = some m0
        ∧ resolveMinSec (objGet l "natal_second") = some s0)) →
      objGet (normalizeSynastryPerson (Json.obj l)) "birth_time" = none) := by
  constructor
  · intro hbd hno
    have hdate : synPersonDate l = l := by
      unfold synPersonDate
      by_cases hcond : (¬ jsTruthyOpt (objGet l "birth_date") = true
          ∧ (objGet l "natal_year").isSome = true)
      · rw [if_pos hcond]
        split
        · next y m d hy hm hd => exact absurd ⟨hy, hm, hd⟩ (hno y m d)
        · rfl
      · rw [if_neg hcond]
    show objGet (synPersonTime (synPersonDate l)) "birth_date" = none
    rw [hdate, objGet_synPersonTime_ne _ _ (by decide)]
    exact hbd
  · intro hbt hno
    have hbt' : objGet (synPersonDate l) "birth_time" = objGet l "birth_time" :=
      objGet_synPersonDate_ne _ _ (by decide)
    have hgh : objGet (synPersonDate l) "natal_hour" = objGet l "natal_hour" :=
      objGet_synPersonDate_ne _ _ (by decide)
    have hgm : objGet (synPersonDate l) "natal_minute" = objGet l "natal_minute" :=
      objGet_synPersonDate_ne _ _ (by decide)
    have hgs : objGet (synPersonDate l) "natal_second" = objGet l "natal_second" :=
      objGet_synPersonDate_ne _ _ (by decide)
    show objGet (synPersonTime (synPersonDate l)) "birth_time" = none
    unfold synPersonTime
    by_cases hcond : (¬ jsTruthyOpt (objGet (synPersonDate l) "birth_time") = true
        ∧ (objGet (synPersonDate l) "natal_hour").isSome = true)
    · rw [if_pos hcond]
      split
      · next h0 m0 s0 hh1 hm1 hs1 =>
          refine absurd ⟨?_, ?_, ?_⟩ (hno h0 m0 s0)
          · rw [← hgh]; exact hh1
          · rw [← hgm]; exact hm1
          · rw [← hgs]; exact hs1
      · rw [hbt']; exact hbt
    · rw [if_neg hcond, hbt']
      exact hbt

theorem synastry_person_partial_components_witness :
    objGet (normalizeSynastryPerson (Json.obj [("natal_year", Json.num 1990)])) "birth_date"
      = none
    ∧ objGet (normalizeSynastryPerson (Json.obj [("natal_year", Json.num 1990)])) "birth_time"
      = none := by
  have h := synastry_person_partial_components [("natal_year", Json.num 1990)]
  refine ⟨h.1 rfl ?_, h.2 rfl ?_⟩
  · intro y m d hc
    exact Option.noConfusion hc.2.1
  · intro h0 m0 s0 hc
    exact Option.noConfusion hc.1

/-- C10: a non-empty string `method` field in the body still overrides the
physical method even without an envelope path, and when the override is
GET the upstream request carries no body. -/
theorem envelope_method_override (req : Req) (m : String)
    (hm : envProp (envelopeOf req) "method" = some (Json.str m))
    (hne : jsTrim m ≠ "")
    (_hp : rawPathFromEnvelope req = none) :
    effectiveMethod req = jsToUpper (jsTrim m)
    ∧ (∀ u, serve req = ServeResult.forward u →
        u.method = jsToUpper (jsTrim m)
        ∧ (jsToUpper (jsTrim m) = "GET" → u.body = none)) := by
  have hraw : rawMethodFromEnvelope req = some (jsToUpper (jsTrim m)) := by
    unfold rawMethodFromEnvelope
    rw [hm]
    show (if jsTrim m = "" then none else some (jsToUpper (jsTrim m)))
        = some (jsToUpper (jsTrim m))
    rw [if_neg hne]
  have hem : effectiveMethod req = jsToUpper (jsTrim m) := by
    unfold effectiveMethod
    rw [hraw]
    rfl
  refine ⟨hem, ?_⟩
  intro u hf
  rw [serve_forward_fields req u hf]
  refine ⟨hem, ?_⟩
  intro hg
  show effectiveBodyJson req = none
  unfold effectiveBodyJson
  rw [if_neg]
  intro hc
  exact hc.1 (hem.trans hg)

theorem envelope_method_override_witness :
    effectiveMethod c10req = jsToUpper (jsTrim "get")
    ∧ c10fwd.method = jsToUpper (jsTrim "get")
    ∧ (jsToUpper (jsTrim "get") = "GET" → c10fwd.body = none) := by
  have h := envelope_method_override c10req "get" rfl (by decide) rfl
  exact ⟨h.1, h.2 c10fwd rfl⟩

end AstroProxy
